import Mathlib

/-!
Verification of the dotsync discovery/classification/parsing core.

Shallow embedding notes:
* Strings are Lean `String`s; all primitive operations (substring search,
  split, trim, lower-casing) are implemented over `String.data` so that every
  definition is executable and kernel-reducible.
* JavaScript regular expressions used by the source are compiled by hand into
  deterministic character-level matchers; where the regex engine backtracks
  (greedy `\s*`/`\s+`/`[^"]+` followed by `(.+)$`) the matcher enumerates the
  same alternatives in the same order.  `.` is modelled as "any character that
  is not a line terminator" (\n, \r, U+2028, U+2029), as in JS without the
  `s` flag.
* The filesystem is a finite rooted tree (`FsNode`); `stat`, `readdir` and
  `readFile` are path lookups in that tree.  Scanner functions additionally
  return an event log (`FsEv`) recording every invocation of the single-file
  scanner and every file read, which makes "the file is never read"
  observable.
* `try/catch` wrappers around pure string manipulation cannot fire and are
  dropped; the `Result` unions of the source therefore collapse to total
  functions for the parsers, while filesystem failures (the expected error
  paths) are kept as explicit error values.
* JS numbers produced by `Number(...)` coercion are stored as their source
  text (`JVal.num`): no claim observes a numeric value, only which branch of
  `parseValue` fired, and that branch condition (`!isNaN(Number(t))`) is
  modelled faithfully by `isNumericJS`.
* Wall-clock fields of the scan metadata (`duration`, `startTime`, `endTime`)
  are not modelled; no claim mentions them.
-/

set_option maxHeartbeats 1000000

namespace DotSync

/-! ### Character classes (JS semantics) -/

/-- The whitespace characters recognised by JS `\s` / `String.prototype.trim`
(ASCII part plus NBSP, BOM and the two Unicode line separators). -/
def jsWhitespace : List Char :=
  [' ', '\t', '\n', '\r', Char.ofNat 11, Char.ofNat 12,
   Char.ofNat 0xa0, Char.ofNat 0x2028, Char.ofNat 0x2029, Char.ofNat 0xfeff]

def isJsSpace (c : Char) : Bool := jsWhitespace.contains c

/-- Line terminators, which JS `.` (without the `s` flag) does not match. -/
def isLineTerm (c : Char) : Bool :=
  c = '\n' || c = '\r' || c = Char.ofNat 0x2028 || c = Char.ofNat 0x2029

/-- JS `\w`: `[A-Za-z0-9_]`. -/
def isWordCh (c : Char) : Bool :=
  ('a' ≤ c && c ≤ 'z') || ('A' ≤ c && c ≤ 'Z') || ('0' ≤ c && c ≤ '9') || c = '_'

/-- `[A-Z_]`, the first character of the bash variable regex. -/
def isUpperUnd (c : Char) : Bool := ('A' ≤ c && c ≤ 'Z') || c = '_'

/-- `[A-Z0-9_]`, the remaining characters of the bash variable regex. -/
def isVarCh (c : Char) : Bool := isUpperUnd c || ('0' ≤ c && c ≤ '9')

def dqCh : Char := Char.ofNat 34

def sqCh : Char := Char.ofNat 39

def bqCh : Char := Char.ofNat 96

def isQuoteCh (c : Char) : Bool := c = dqCh || c = sqCh

def obCh : Char := Char.ofNat 123

def cbCh : Char := Char.ofNat 125

/-! ### List-of-char string primitives -/

/-- `prefB n h` holds iff `n` is a prefix of `h` (JS `startsWith`). -/
def prefB : List Char → List Char → Bool
  | [], _ => true
  | _ :: _, [] => false
  | a :: as, b :: bs => a = b && prefB as bs

/-- `infB n h` holds iff `n` occurs contiguously in `h` (JS `includes`). -/
def infB : List Char → List Char → Bool
  | n, [] => prefB n []
  | n, b :: bs => prefB n (b :: bs) || infB n bs

def containsSub (needle hay : String) : Bool := infB needle.data hay.data

def startsWithB (p s : String) : Bool := prefB p.data s.data

def endsWithB (p s : String) : Bool := prefB p.data.reverse s.data.reverse

/-- JS `String.prototype.trim`. -/
def jsTrim (s : String) : String :=
  String.mk (((s.data.dropWhile isJsSpace).reverse.dropWhile isJsSpace).reverse)

/-- JS `String.prototype.split(sep)` for a single-character separator:
always returns at least one (possibly empty) piece. -/
def splitCh (sep : Char) : List Char → List (List Char)
  | [] => [[]]
  | c :: cs =>
    if c = sep then [] :: splitCh sep cs
    else
      match splitCh sep cs with
      | [] => [[c]]
      | l :: ls => (c :: l) :: ls

/-- `content.split('\n')`, the line decomposition every parser uses. -/
def linesOf (s : String) : List String := (splitCh '\n' s.data).map String.mk

/-- JS `String.prototype.toLowerCase` (ASCII; all strings the scanner
lower-cases are ASCII). -/
def lowerStr (s : String) : String := String.mk (s.data.map Char.toLower)

/-- Decimal digit character. -/
def digitChar (n : Nat) : Char := Char.ofNat (48 + n)

/-- Decimal rendering worker (structurally recursive on fuel so that the
kernel can evaluate it). -/
def natStrGo : Nat → Nat → List Char → List Char
  | 0, _, acc => acc
  | fuel + 1, n, acc =>
    if n < 10 then digitChar n :: acc
    else natStrGo fuel (n / 10) (digitChar (n % 10) :: acc)

/-- Decimal rendering of a natural number, as JS template interpolation of a
nonnegative integer produces (`n + 1` units of fuel always suffice since the
argument at least halves each step). -/
def natStr (n : Nat) : List Char := natStrGo (n + 1) n []

def natStrS (n : Nat) : String := String.mk (natStr n)

/-! ### The `\s*(.+)$` / `\s+(.+)$` regex tails

Several source regexes end in `\s*(.+)$` or `\s+(.+)$`.  The engine first
consumes as much whitespace as possible, then backtracks until the remainder
is a non-empty run of non-line-terminator characters.  `wsDotPlus` follows
exactly that strategy. -/

def dotPlusAll (cs : List Char) : Option (List Char) :=
  if cs.isEmpty then none
  else if cs.all (fun c => !isLineTerm c) then some cs
  else none

/-- Matches `\s*(.+)$` against `cs`, returning the capture. -/
def wsDotPlus : List Char → Option (List Char)
  | [] => none
  | c :: cs =>
    if isJsSpace c then
      match wsDotPlus cs with
      | some v => some v
      | none => dotPlusAll (c :: cs)
    else dotPlusAll (c :: cs)

/-- Matches `\s+(.+)$` against `cs`, returning the capture. -/
def wsPlus : List Char → Option (List Char)
  | [] => none
  | c :: cs => if isJsSpace c then wsDotPlus cs else none

/-! ### Glob patterns (`shouldExclude`)

`DotfileScanner.shouldExclude` turns each exclude pattern into a regex by
`pattern.replace(/\*/g, '.*')` and calls `regex.test(path)`.  For patterns
made of literal characters and `*` (the scope of C5) that regex is a sequence
of literal characters and `.*` segments, tested unanchored.  `gmHere` matches
the token list against a prefix of the input, `gmSome` at any position. -/

inductive GTok where
  | lit (c : Char)
  | star
deriving DecidableEq

def patToks (p : String) : List GTok :=
  p.data.map fun c => if c = '*' then GTok.star else GTok.lit c

/-- Whether the token list matches the empty input (all tokens are stars). -/
def gmEmpty : List GTok → Bool
  | [] => true
  | .lit _ :: _ => false
  | .star :: ts => gmEmpty ts

/-- One input character worth of matching: `recTail ts` decides whether `ts`
matches (a prefix of) the input after `d`. -/
def gmHereStep (recTail : List GTok → Bool) (d : Char) : List GTok → Bool
  | [] => true
  | .lit c :: ts => c = d && recTail ts
  | .star :: ts => gmHereStep recTail d ts || (!isLineTerm d && recTail (.star :: ts))

/-- `gmHereCs cs ts`: the tokens `ts` match some prefix of `cs` (a regex
match attempt anchored at the current position; acceptance is the same as the
backtracking JS engine's). -/
def gmHereCs : List Char → List GTok → Bool
  | [], ts => gmEmpty ts
  | d :: cs2, ts => gmHereStep (gmHereCs cs2) d ts

def gmHere (ts : List GTok) (cs : List Char) : Bool := gmHereCs cs ts

/-- `regex.test`: try every start position (unanchored search). -/
def gmSome (ts : List GTok) : List Char → Bool
  | [] => gmHere ts []
  | c :: cs => gmHere ts (c :: cs) || gmSome ts cs

/-- Declarative semantics of a glob segment: `GSeg ts v` holds when the token
list `ts` (with `*` ↦ `.*`) matches exactly the character list `v`. -/
inductive GSeg : List GTok → List Char → Prop where
  | nil : GSeg [] []
  | lit {c : Char} {ts : List GTok} {cs : List Char} :
      GSeg ts cs → GSeg (.lit c :: ts) (c :: cs)
  | star {ts : List GTok} (u : List Char) {v : List Char} :
      (∀ c ∈ u, isLineTerm c = false) → GSeg ts v → GSeg (.star :: ts) (u ++ v)

/-- Regex metacharacters of JS `RegExp`; a "literal" exclude pattern (the
scope of C5) contains none of these except `*`. -/
def isRegexSpecial (c : Char) : Bool :=
  c = '\\' || c = '^' || c = '$' || c = '.' || c = '|' || c = '?' || c = '*' ||
  c = '+' || c = '(' || c = ')' || c = '[' || c = ']' ||
  c = Char.ofNat 123 || c = Char.ofNat 125

def litGlob (p : String) : Bool := p.data.all fun c => c = '*' || !isRegexSpecial c

/-! ### JS `Number(...)` coercion test

`parseValue` (bash and git parsers) coerces a trimmed string to a number when
`!isNaN(Number(trimmed))`.  `isNumericJS` decides that condition: the empty
string is numeric (`Number('') === 0`), non-decimal integer literals
(`0x`/`0o`/`0b`) are accepted without a sign, and decimal literals allow a
sign, a fractional part and an exponent.  `Infinity` is numeric. -/

def isHexDigit (c : Char) : Bool :=
  ('0' ≤ c && c ≤ '9') || ('a' ≤ c && c ≤ 'f') || ('A' ≤ c && c ≤ 'F')

def isOctDigit (c : Char) : Bool := '0' ≤ c && c ≤ '7'

def isBinDigit (c : Char) : Bool := c = '0' || c = '1'

def decimalOk (m : List Char) : Bool :=
  let intPart := m.takeWhile Char.isDigit
  let r1 := m.drop intPart.length
  let hasDot := prefB ['.'] r1
  let afterDot := if hasDot then r1.drop 1 else r1
  let fracPart := if hasDot then afterDot.takeWhile Char.isDigit else []
  let r2 := if hasDot then afterDot.drop fracPart.length else r1
  if intPart.isEmpty && fracPart.isEmpty then false
  else
    match r2 with
    | [] => true
    | e :: rest =>
      if e = 'e' || e = 'E' then
        let rest2 :=
          match rest with
          | c :: rr => if c = '+' || c = '-' then rr else rest
          | [] => rest
        !rest2.isEmpty && rest2.all Char.isDigit
      else false

def isNumericJS (t : List Char) : Bool :=
  if t.isEmpty then true
  else if prefB ['0', 'x'] t || prefB ['0', 'X'] t then
    !(t.drop 2).isEmpty && (t.drop 2).all isHexDigit
  else if prefB ['0', 'o'] t || prefB ['0', 'O'] t then
    !(t.drop 2).isEmpty && (t.drop 2).all isOctDigit
  else if prefB ['0', 'b'] t || prefB ['0', 'B'] t then
    !(t.drop 2).isEmpty && (t.drop 2).all isBinDigit
  else
    let t2 :=
      match t with
      | c :: r => if c = '+' || c = '-' then r else t
      | [] => t
    if t2 = "Infinity".data then true else decimalOk t2

/-! ### Core data model (src/types/index.ts) -/

inductive ConfigType where
  | bash | zsh | vim | git | ssh | vscode | system | custom
deriving DecidableEq

inductive BackupStatus where
  | not_backed_up | pending | backed_up | error
deriving DecidableEq

/-- A parsed JS value as produced by the parsers' `parseValue`: a string, a
boolean, or a number (kept as its source text, see the header note). -/
inductive JVal where
  | str (s : String)
  | bool (b : Bool)
  | num (raw : String)
deriving DecidableEq

structure ValidationResult where
  isValid : Bool
  errors : List String
  warnings : List String
  suggestions : List String
deriving DecidableEq

/-- The trivial validation object every `parse` method embeds verbatim. -/
def trivialValidation : ValidationResult :=
  { isValid := true, errors := [], warnings := [], suggestions := [] }

structure DotfileConfig where
  path : String
  type : ConfigType
  content : String
  lastModified : Nat
  size : Nat
  dependencies : List String
  isActive : Bool
  backupStatus : BackupStatus
deriving DecidableEq

inductive ScanErrorType where
  | permission | not_found | parse_error | size_limit | unknown
deriving DecidableEq

structure ScanError where
  path : String
  message : String
  type : ScanErrorType
  name : String
deriving DecidableEq

structure ScanMetadata where
  totalFiles : Nat
  validConfigs : Nat
deriving DecidableEq

structure ScanResult where
  configs : List DotfileConfig
  metadata : ScanMetadata
  errors : List ScanError
deriving DecidableEq

/-- `ScanOptions`; absent optional fields are `none`, and `includeHidden`
models the JS truthiness test `!options.includeHidden` (absent ≡ false). -/
structure ScanOptions where
  paths : Option (List String) := none
  includeHidden : Bool := false
  maxFileSize : Option Nat := none
  excludePatterns : Option (List String) := none
deriving DecidableEq

structure JsError where
  name : String
  message : String
deriving DecidableEq

/-! ### Constants (src/types/constants.ts) -/

def DEFAULT_SCAN_PATHS : List String :=
  ["~/.bashrc", "~/.bash_profile", "~/.bash_aliases", "~/.zshrc",
   "~/.zsh_profile", "~/.oh-my-zsh/custom", "~/.vimrc", "~/.nvimrc",
   "~/.gitconfig", "~/.gitignore_global", "~/.ssh/config",
   "~/.ssh/known_hosts", "~/.profile", "~/.inputrc", "~/.tmux.conf",
   "~/.screenrc"]

def CONFIG_TYPE_MAPPING : List (String × ConfigType) :=
  [(".bashrc", .bash), (".bash_profile", .bash), (".bash_aliases", .bash),
   (".zshrc", .zsh), (".zsh_profile", .zsh),
   (".vimrc", .vim), (".nvimrc", .vim),
   (".gitconfig", .git), (".gitignore_global", .git),
   ("config", .ssh), ("known_hosts", .ssh),
   (".profile", .system), (".inputrc", .system), (".tmux.conf", .system),
   (".screenrc", .system)]

def MAX_FILE_SIZE : Nat := 10 * 1024 * 1024

def SUPPORTED_EXTENSIONS : List String :=
  [".rc", ".conf", ".config", ".profile", ".bashrc", ".zshrc", ".vimrc",
   ".nvimrc", ".gitconfig", ".gitignore", ".ssh", ".tmux", ".screen"]

/-- First-match association lookup, the model of JS object key access for the
literal lookup tables (key `in` object; prototype-chain keys such as
`toString` are outside every claim's scope and not modelled). -/
def findAssoc {α : Type} : List (String × α) → String → Option α
  | [], _ => none
  | (k, v) :: t, key => if k = key then some v else findAssoc t key

/-- JS object property assignment on an insertion-ordered association list:
replaces in place if the key exists, appends otherwise. -/
def setAssoc {α : Type} : List (String × α) → String → α → List (String × α)
  | [], k, v => [(k, v)]
  | (k2, v2) :: t, k, v =>
    if k2 = k then (k, v) :: t else (k2, v2) :: setAssoc t k v

/-! ### Path helpers (node `path`, restricted to the forms the scanner
produces: absolute slash-separated paths; `.`/`..` normalisation is not
modelled since no claim exercises it). -/

/-- node `basename`: strip trailing slashes, then take the last component. -/
def basename (p : String) : String :=
  String.mk (((p.data.reverse.dropWhile (· = '/')).takeWhile (· ≠ '/')).reverse)

/-- node `extname`: the suffix of the base name from its last dot, empty when
the only dot is leading (hidden files) or there is no dot. -/
def extname (p : String) : String :=
  let b := (basename p).data
  if b = ['.'] || b = ['.', '.'] then ""
  else
    let afterRev := b.reverse.takeWhile (· ≠ '.')
    if afterRev.length = b.length then ""
    else if b.length - afterRev.length - 1 = 0 then ""
    else String.mk ('.' :: afterRev.reverse)

/-- node `path.join(a, b)` for a simple child name. -/
def joinPath (a b : String) : String :=
  String.mk (a.data ++ '/' :: b.data.dropWhile (· = '/'))

/-- `DotfileScanner.resolvePath`: `~` expansion, else `resolve` (identity on
absolute paths, `cwd`-prefixing on relative ones). -/
def resolvePath (home cwd p : String) : String :=
  if startsWithB "~" p then joinPath home (String.mk (p.data.drop 1))
  else if startsWithB "/" p then p
  else joinPath cwd p

/-- Path components for tree lookup: split on `/`, drop empties. -/
def comps (p : String) : List String :=
  ((splitCh '/' p.data).filter (fun l => !l.isEmpty)).map String.mk

/-! ### Filesystem model and event log -/

/-!
A finite filesystem tree.  Regular files carry their stat-reported size,
mtime and content; directories carry their (ordered) entries.  Special files
(sockets, symlink cycles) are outside every claim's scope.  The entry list is
its own inductive (`FsEntries`) so that the directory walk below is
structurally recursive and kernel-evaluable.
-/
mutual
inductive FsNode where
  | file (size : Nat) (mtime : Nat) (content : String)
  | dir (entries : FsEntries)
inductive FsEntries where
  | nil
  | cons (name : String) (node : FsNode) (rest : FsEntries)
end

/-- Observable filesystem events: an invocation of `scanFile` on a path, and
a `readFile` of a path.  "The file is never read" is `readCall p ∉ log`. -/
inductive FsEv where
  | scanFileCall (path : String)
  | readCall (path : String)
deriving DecidableEq

/-- Directory entry lookup (first match, like a real directory listing). -/
def findE : FsEntries → String → Option FsNode
  | .nil, _ => none
  | .cons n node rest, key => if n = key then some node else findE rest key

/-- `stat`/tree lookup. -/
def lookupNode : FsNode → List String → Option FsNode
  | n, [] => some n
  | n, c :: cs =>
    match n with
    | .file _ _ _ => none
    | .dir es =>
      match findE es c with
      | some n2 => lookupNode n2 cs
      | none => none

/-! ### DotfileScanner -/

/-- The effective size bound `options.maxFileSize || MAX_FILE_SIZE`
(`0` and absent are both falsy in JS). -/
def effMax (o : ScanOptions) : Nat :=
  match o.maxFileSize with
  | none => MAX_FILE_SIZE
  | some n => if n = 0 then MAX_FILE_SIZE else n

/-- `DotfileScanner.determineConfigType`. -/
def determineConfigType (filePath : String) : Option ConfigType :=
  let fileName := basename filePath
  let extension := extname filePath
  match findAssoc CONFIG_TYPE_MAPPING fileName with
  | some t => some t
  | none =>
    if !extension.data.isEmpty then
      match findAssoc CONFIG_TYPE_MAPPING extension with
      | some t => some t
      | none =>
        if SUPPORTED_EXTENSIONS.any (fun ext => containsSub ext fileName) then
          some .custom
        else none
    else
      if SUPPORTED_EXTENSIONS.any (fun ext => containsSub ext fileName) then
        some .custom
      else none

/-- `DotfileScanner.shouldExclude`; the per-pattern regex semantics is the
literal/`*` glob matcher (faithful on the literal patterns of C5's scope). -/
def shouldExclude (path : String) (excludePatterns : Option (List String)) : Bool :=
  match excludePatterns with
  | none => false
  | some pats => pats.any fun pat => gmSome (patToks pat) path.data

/-- `DotfileScanner.categorizeError`. -/
def categorizeError (message : String) : ScanErrorType :=
  let m := lowerStr message
  if containsSub "permission denied" m || containsSub "eacces" m then .permission
  else if containsSub "no such file" m || containsSub "enoent" m then .not_found
  else if containsSub "too large" m then .size_limit
  else if containsSub "parse" m || containsSub "syntax" m then .parse_error
  else .unknown

def tooLargeMsg (sz : Nat) : String := "File too large: " ++ natStrS sz ++ " bytes"

def enoentMsg (p : String) : String :=
  "ENOENT: no such file or directory, stat " ++
    String.mk (sqCh :: p.data ++ [sqCh])

/-- `DotfileScanner.scanFile`, with the stat result supplied from the tree.
Emits a `scanFileCall` event, checks the size bound before any read, then
reads (event `readCall`) and classifies. -/
def scanFile (o : ScanOptions) (path : String) (size mtime : Nat)
    (content : String) : Except JsError (List DotfileConfig) × List FsEv :=
  if size > effMax o then
    (.error ⟨"Error", tooLargeMsg size⟩, [.scanFileCall path])
  else
    let evs : List FsEv := [.scanFileCall path, .readCall path]
    match determineConfigType path with
    | none => (.ok [], evs)
    | some t =>
      (.ok [{ path := path, type := t, content := content,
              lastModified := mtime, size := size, dependencies := [],
              isActive := true, backupStatus := .not_backed_up }], evs)

/-- `DotfileScanner.scanDirectory`: walk the entries, skipping hidden names
(unless `includeHidden`) and excluded paths; per-file failures are dropped
silently; subdirectories recurse. -/
def scanDirectory (o : ScanOptions) (dirPath : String) :
    FsEntries → List DotfileConfig × List FsEv
  | .nil => ([], [])
  | .cons name node rest =>
    let full := joinPath dirPath name
    if !o.includeHidden && startsWithB "." name then
      scanDirectory o dirPath rest
    else if shouldExclude full o.excludePatterns then
      scanDirectory o dirPath rest
    else
      match node with
      | .file sz mt c =>
        let fr := scanFile o full sz mt c
        let rr := scanDirectory o dirPath rest
        (match fr.1 with
         | .ok recs => (recs ++ rr.1, fr.2 ++ rr.2)
         | .error _ => (rr.1, fr.2 ++ rr.2))
      | .dir es =>
        let dr := scanDirectory o full es
        let rr := scanDirectory o dirPath rest
        (dr.1 ++ rr.1, dr.2 ++ rr.2)

/-- `DotfileScanner.scanPath`: stat, then dispatch to file or directory scan;
a failed stat is the ENOENT error path. -/
def scanPath (root : FsNode) (o : ScanOptions) (path : String) :
    Except JsError (List DotfileConfig) × List FsEv :=
  match lookupNode root (comps path) with
  | none => (.error ⟨"Error", enoentMsg path⟩, [])
  | some (.file sz mt c) => scanFile o path sz mt c
  | some (.dir es) =>
    let r := scanDirectory o path es
    (.ok r.1, r.2)

def mkScanError (path : String) (e : JsError) : ScanError :=
  { path := path, message := e.message, type := categorizeError e.message,
    name := if e.name = "" then "ScanError" else e.name }

/-- The per-path loop of `DotfileScanner.scan`. -/
def scanPaths (root : FsNode) (home cwd : String) (o : ScanOptions) :
    List String → List DotfileConfig × List ScanError × List FsEv
  | [] => ([], [], [])
  | p :: ps =>
    let r := resolvePath home cwd p
    let pr := scanPath root o r
    let rest := scanPaths root home cwd o ps
    match pr.1 with
    | .ok recs => (recs ++ rest.1, rest.2.1, pr.2 ++ rest.2.2)
    | .error e => (rest.1, mkScanError r e :: rest.2.1, pr.2 ++ rest.2.2)

/-- `DotfileScanner.scan`. -/
def scan (root : FsNode) (home cwd : String) (o : ScanOptions) :
    ScanResult × List FsEv :=
  let pathsToScan := o.paths.getD DEFAULT_SCAN_PATHS
  let r := scanPaths root home cwd o pathsToScan
  ({ configs := r.1,
     metadata := { totalFiles := pathsToScan.length, validConfigs := r.1.length },
     errors := r.2.1 }, r.2.2)

/-! ### Per-line diagnostic accumulation

Every `validate` method walks `content.split('\n')` pushing messages tagged
with the 1-based line number; `perLineAux f 1 lines` is that loop for one of
the three diagnostic streams (the streams are independent accumulators, so
modelling them separately is a faithful refactor of the single pass). -/

def perLineAux (f : Nat → String → List String) : Nat → List String → List String
  | _, [] => []
  | n, l :: ls => f n l ++ perLineAux f (n + 1) ls

def perLine (f : Nat → String → List String) (content : String) : List String :=
  perLineAux f 1 (linesOf content)

/-! ### BashParser (src/parsers/bash-parser.ts) -/

/-- `^([A-Z_][A-Z0-9_]*)\s*=\s*(.+)$` — name and raw value.  Note the anchor:
the line must *begin* with the variable name, so `export FOO=...` does not
match. -/
def varMatch (line : String) : Option (String × String) :=
  match line.data with
  | [] => none
  | c :: cs =>
    if isUpperUnd c then
      let nameRest := cs.takeWhile isVarCh
      let afterWs := (cs.drop nameRest.length).dropWhile isJsSpace
      match afterWs with
      | '=' :: rest =>
        match wsDotPlus rest with
        | some v => some (String.mk (c :: nameRest), String.mk v)
        | none => none
      | _ => none
    else none

/-- `^(source|\.)\s+(.+)$` — the import target. -/
def importMatch (line : String) : Option (List Char) :=
  let d := line.data
  match (if prefB "source".data d then wsPlus (d.drop 6) else none) with
  | some v => some v
  | none => if prefB ['.'] d then wsPlus (d.drop 1) else none

/-- `^(\w+)\s*\(\s*\)\s*\{` — a zero-argument function definition. -/
def funcMatchBash (line : String) : Option String :=
  let d := line.data
  let w := d.takeWhile isWordCh
  if w.isEmpty then none
  else
    match (d.drop w.length).dropWhile isJsSpace with
    | '(' :: r2 =>
      match r2.dropWhile isJsSpace with
      | ')' :: r3 =>
        match r3.dropWhile isJsSpace with
        | b :: _ => if b = obCh then some (String.mk w) else none
        | [] => none
      | _ => none
    | _ => none

/-- `^alias\s+(\w+)=(.+)$` — the alias name. -/
def aliasMatch (line : String) : Option String :=
  let d := line.data
  if prefB "alias".data d then
    match d.drop 5 with
    | c :: _ =>
      if isJsSpace c then
        let r2 := (d.drop 5).dropWhile isJsSpace
        let w := r2.takeWhile isWordCh
        if w.isEmpty then none
        else
          match r2.drop w.length with
          | '=' :: v =>
            if !v.isEmpty && v.all (fun ch => !isLineTerm ch) then
              some (String.mk w)
            else none
          | _ => none
      else none
    | [] => none
  else none

/-- `BashParser.parseValue`: strip matching quotes, coerce `true`/`false`,
coerce numerics, else the trimmed string. -/
def bashParseValue (value : String) : JVal :=
  let t := (jsTrim value).data
  if prefB [dqCh] t && prefB [dqCh] t.reverse then
    JVal.str (String.mk ((t.drop 1).dropLast))
  else if prefB [sqCh] t && prefB [sqCh] t.reverse then
    JVal.str (String.mk ((t.drop 1).dropLast))
  else if t = "true".data then JVal.bool true
  else if t = "false".data then JVal.bool false
  else if isNumericJS t then JVal.num (String.mk t)
  else JVal.str (String.mk t)

/-- The result of `BashParser.parse` (the `data` blob's fields flattened next
to the top-level `variables`/`imports`/`comments`/`validation` fields; the
blob's `variables`, `imports` and `aliases` are the same objects). -/
structure BashParsed where
  /-- source field name: `variables` (a reserved token in Lean) -/
  vars : List (String × JVal)
  imports : List String
  comments : List String
  functions : List String
  aliases : List String
  lineCount : Nat
  validation : ValidationResult
deriving DecidableEq

structure BashAcc where
  vars : List (String × JVal)
  imports : List String
  comments : List String
  functions : List String
  aliases : List String
deriving DecidableEq

/-- One iteration of the `BashParser.parse` line loop, in source order:
comment, variable, import, function, alias; first match consumes the line. -/
def bashStep (st : BashAcc) (rawLine : String) : BashAcc :=
  let line := jsTrim rawLine
  if line.data.isEmpty then st
  else if startsWithB "#" line then
    { st with comments := st.comments ++ [jsTrim (String.mk (line.data.drop 1))] }
  else
    match varMatch line with
    | some (nm, v) => { st with vars := setAssoc st.vars nm (bashParseValue v) }
    | none =>
      match importMatch line with
      | some tgt =>
        { st with imports := st.imports ++ [String.mk (tgt.filter (fun c => !isQuoteCh c))] }
      | none =>
        match funcMatchBash line with
        | some f => { st with functions := st.functions ++ [f] }
        | none =>
          match aliasMatch line with
          | some a => { st with aliases := st.aliases ++ [a] }
          | none => st

/-- `BashParser.parse`.  The `try/catch` and the propagation of a `validate`
failure are unreachable (all operations are pure and total), so the model is
total; the embedded `validation` field is the literal trivial object the
source constructs. -/
def bashParse (content : String) : BashParsed :=
  let lines := linesOf content
  let acc := lines.foldl bashStep ⟨[], [], [], [], []⟩
  { vars := acc.vars, imports := acc.imports,
    comments := acc.comments, functions := acc.functions,
    aliases := acc.aliases, lineCount := lines.length,
    validation := trivialValidation }

def bashLineErrs (n : Nat) (line : String) : List String :=
  (if containsSub "$((" line && !containsSub "))" line then
    ["Line " ++ natStrS n ++ ": Unclosed arithmetic expansion"] else []) ++
  (if containsSub "$\x7b" line && !containsSub "\x7d" line then
    ["Line " ++ natStrS n ++ ": Unclosed variable expansion"] else []) ++
  (if (line.data.count bqCh) % 2 ≠ 0 then
    ["Line " ++ natStrS n ++ ": Unclosed command substitution"] else [])

def bashLineWarns (n : Nat) (line : String) : List String :=
  (if containsSub "rm -rf" line && !containsSub "$HOME" line then
    ["Line " ++ natStrS n ++ ": Dangerous rm -rf command without path validation"] else []) ++
  (if containsSub "sudo" line && !containsSub "echo" line then
    ["Line " ++ natStrS n ++ ": Sudo command may require password input"] else [])

def bashLineSuggs (n : Nat) (line : String) : List String :=
  (if containsSub "export" line && containsSub "=" line &&
      !containsSub (String.mk [dqCh]) line then
    ["Line " ++ natStrS n ++ ": Consider quoting variable values"] else []) ++
  (if containsSub "cd" line && !containsSub "||" line then
    ["Line " ++ natStrS n ++ ": Consider error handling for cd command"] else [])

/-- `BashParser.validate` (total: the `catch` branch is unreachable). -/
def bashValidate (content : String) : ValidationResult :=
  let e := perLine bashLineErrs content
  { isValid := e.isEmpty, errors := e,
    warnings := perLine bashLineWarns content,
    suggestions := perLine bashLineSuggs content }

/-! ### VimParser (src/parsers/vim-parser.ts) -/

/-- `^set\s+(\w+)(?:=([^"]+))?` — option name and optional value (the value
group needs at least one non-quote character to participate). -/
def setMatch (line : String) : Option (String × Option String) :=
  let d := line.data
  if prefB "set".data d then
    let rest := d.drop 3
    match rest with
    | c :: _ =>
      if isJsSpace c then
        let r2 := rest.dropWhile isJsSpace
        let w := r2.takeWhile isWordCh
        if w.isEmpty then none
        else
          match r2.drop w.length with
          | '=' :: cs2 =>
            let v := cs2.takeWhile (fun ch => ch ≠ dqCh)
            if v.isEmpty then some (String.mk w, none)
            else some (String.mk w, some (String.mk v))
          | _ => some (String.mk w, none)
      else none
    | [] => none
  else none

/-- `([^"]+)\s+(.+)$`: greedy key (longest first), then `\s+(.+)$`. -/
def mapKeyCmd (cs : List Char) : Option (List Char × List Char) :=
  (List.range cs.length).findSome? fun i =>
    let k := cs.length - i
    let key := cs.take k
    if key.all (fun c => c ≠ dqCh) then
      match wsPlus (cs.drop k) with
      | some cmd => some (key, cmd)
      | none => none
    else none

/-- `\s+([^"]+)\s+(.+)$`: greedy leading whitespace (longest first, at least
one), then `mapKeyCmd`. -/
def mapAfterKw (cs : List Char) : Option (List Char × List Char) :=
  let m := (cs.takeWhile isJsSpace).length
  if m = 0 then none
  else
    (List.range m).findSome? fun i => mapKeyCmd (cs.drop (m - i))

/-- `^(?:nore)?map\s+([^"]+)\s+(.+)$` — mapping key and command. -/
def mapMatch (line : String) : Option (String × String) :=
  let d := line.data
  let r :=
    if prefB "noremap".data d then mapAfterKw (d.drop 7)
    else if prefB "map".data d then mapAfterKw (d.drop 3)
    else none
  r.map fun p => (String.mk p.1, String.mk p.2)

/-- `^Plug\s+['"]([^'"]+)['"]` — plugin name between (any) quotes. -/
def plugMatch (line : String) : Option String :=
  let d := line.data
  if prefB "Plug".data d then
    let rest := d.drop 4
    match rest with
    | c :: _ =>
      if isJsSpace c then
        match rest.dropWhile isJsSpace with
        | q :: cs =>
          if isQuoteCh q then
            let nm := cs.takeWhile (fun ch => !isQuoteCh ch)
            if nm.isEmpty then none
            else
              match cs.drop nm.length with
              | q2 :: _ => if isQuoteCh q2 then some (String.mk nm) else none
              | [] => none
          else none
        | [] => none
      else none
    | [] => none
  else none

/-- `^function\s+(\w+)` — function name. -/
def funcMatchVim (line : String) : Option String :=
  let d := line.data
  if prefB "function".data d then
    match d.drop 8 with
    | c :: _ =>
      if isJsSpace c then
        let w := ((d.drop 8).dropWhile isJsSpace).takeWhile isWordCh
        if w.isEmpty then none else some (String.mk w)
      else none
    | [] => none
  else none

/-- `^autocmd\s+(.+)$` — the autocmd payload. -/
def autocmdMatch (line : String) : Option String :=
  let d := line.data
  if prefB "autocmd".data d then (wsPlus (d.drop 7)).map String.mk
  else none

structure VimParsed where
  settings : List (String × JVal)
  keyMappings : List (String × String)
  plugins : List String
  comments : List String
  functions : List String
  autocmds : List String
  lineCount : Nat
  validation : ValidationResult
deriving DecidableEq

structure VimAcc where
  settings : List (String × JVal)
  keyMappings : List (String × String)
  plugins : List String
  comments : List String
  functions : List String
  autocmds : List String
deriving DecidableEq

/-- One iteration of the `VimParser.parse` line loop (source order: comment,
set, map, plugin, function, autocmd). -/
def vimStep (st : VimAcc) (rawLine : String) : VimAcc :=
  let line := jsTrim rawLine
  if line.data.isEmpty then st
  else if startsWithB (String.mk [dqCh]) line then
    { st with comments := st.comments ++ [jsTrim (String.mk (line.data.drop 1))] }
  else
    match setMatch line with
    | some (opt, v) =>
      { st with settings := setAssoc st.settings opt (match v with
          | some s => JVal.str s
          | none => JVal.bool true) }
    | none =>
      match mapMatch line with
      | some (k, cmd) => { st with keyMappings := setAssoc st.keyMappings k cmd }
      | none =>
        match plugMatch line with
        | some p => { st with plugins := st.plugins ++ [p] }
        | none =>
          match funcMatchVim line with
          | some f => { st with functions := st.functions ++ [f] }
          | none =>
            match autocmdMatch line with
            | some a => { st with autocmds := st.autocmds ++ [a] }
            | none => st

/-- `VimParser.parse` (total, validation field literal — see `bashParse`). -/
def vimParse (content : String) : VimParsed :=
  let lines := linesOf content
  let acc := lines.foldl vimStep ⟨[], [], [], [], [], []⟩
  { settings := acc.settings, keyMappings := acc.keyMappings,
    plugins := acc.plugins, comments := acc.comments,
    functions := acc.functions, autocmds := acc.autocmds,
    lineCount := lines.length, validation := trivialValidation }

/-- The per-line plugin warning text of `VimParser.validate`. -/
def plugWarn (n : Nat) : String :=
  "Line " ++ natStrS n ++ ": Plugin without plug#begin() - ensure vim-plug is installed"

def vimLineWarns (n : Nat) (line : String) : List String :=
  (if containsSub "map" line && !containsSub "noremap" line &&
      containsSub "<leader>" line then
    ["Line " ++ natStrS n ++ ": Consider using noremap for leader key mappings"] else []) ++
  (if containsSub "Plug" line && !containsSub "call plug#begin" line then
    [plugWarn n] else [])

def vimLineSuggs (n : Nat) (line : String) : List String :=
  (if containsSub "set" line && containsSub "=" line &&
      !containsSub (String.mk [dqCh]) line then
    ["Line " ++ natStrS n ++ ": Consider quoting string values in set commands"] else []) ++
  (if containsSub "colorscheme" line && !containsSub "try" line then
    ["Line " ++ natStrS n ++ ": Consider wrapping colorscheme in try-catch"] else [])

/-- `VimParser.validate`: it never pushes errors, only warnings and
suggestions, and `isValid` is `errors.length === 0`. -/
def vimValidate (content : String) : ValidationResult :=
  let e : List String := []
  { isValid := e.isEmpty, errors := e,
    warnings := perLine vimLineWarns content,
    suggestions := perLine vimLineSuggs content }

/-! ### GitParser (src/parsers/git-parser.ts) -/

/-- `^\[([^\]]+)\]$` — an INI section header on the (trimmed) line. -/
def gitSection (line : String) : Option String :=
  match line.data with
  | '[' :: rest =>
    if rest.getLast? = some ']' then
      let mid := rest.dropLast
      if !mid.isEmpty && mid.all (fun c => c ≠ ']') then some (String.mk mid)
      else none
    else none
  | _ => none

/-- `^([^=]+)\s*=\s*(.+)$` — key (greedy, includes any spaces before the
first `=`) and value. -/
def gitKv (line : String) : Option (String × String) :=
  let d := line.data
  let key := d.takeWhile (fun c => c ≠ '=')
  if key.isEmpty then none
  else if key.length = d.length then none
  else
    match wsDotPlus (d.drop (key.length + 1)) with
    | some v => some (String.mk key, String.mk v)
    | none => none

/-- `GitParser.parseValue`: booleans, then numbers, then quote stripping,
else the trimmed string (note the order differs from the bash parser). -/
def gitParseValue (value : String) : JVal :=
  let t := (jsTrim value).data
  if t = "true".data then JVal.bool true
  else if t = "false".data then JVal.bool false
  else if isNumericJS t then JVal.num (String.mk t)
  else if (prefB [dqCh] t && prefB [dqCh] t.reverse) ||
          (prefB [sqCh] t && prefB [sqCh] t.reverse) then
    JVal.str (String.mk ((t.drop 1).dropLast))
  else JVal.str (String.mk t)

/-- Update `sections[cur][key]` (the entry for `cur` always exists when this
is reached; the append case is unreachable). -/
def updSection : List (String × List (String × JVal)) → String → String → JVal →
    List (String × List (String × JVal))
  | [], cur, k, v => [(cur, [(k, v)])]
  | (s, m) :: t, cur, k, v =>
    if s = cur then (s, setAssoc m k v) :: t else (s, m) :: updSection t cur k v

structure GitParsed where
  sections : List (String × List (String × JVal))
  aliases : List (String × JVal)
  remotes : List (String × JVal)
  comments : List String
  lineCount : Nat
  validation : ValidationResult
deriving DecidableEq

structure GitAcc where
  sections : List (String × List (String × JVal))
  aliases : List (String × JVal)
  remotes : List (String × JVal)
  comments : List String
  currentSection : String
deriving DecidableEq

/-- One iteration of the `GitParser.parse` line loop. -/
def gitStep (st : GitAcc) (rawLine : String) : GitAcc :=
  let line := jsTrim rawLine
  if line.data.isEmpty then st
  else if startsWithB "#" line then
    { st with comments := st.comments ++ [jsTrim (String.mk (line.data.drop 1))] }
  else
    match gitSection line with
    | some sec =>
      { st with currentSection := sec,
                sections :=
                  if (findAssoc st.sections sec).isSome then st.sections
                  else st.sections ++ [(sec, [])] }
    | none =>
      match gitKv line with
      | some (k, v) =>
        if st.currentSection = "" then st
        else
          let pv := gitParseValue v
          let aliases2 :=
            if st.currentSection = "alias" then setAssoc st.aliases k pv
            else st.aliases
          let remotes2 :=
            if startsWithB "remote" st.currentSection then
              match (splitCh dqCh st.currentSection.data).get? 1 with
              | some nm =>
                if !nm.isEmpty then setAssoc st.remotes (String.mk nm) pv
                else st.remotes
              | none => st.remotes
            else st.remotes
          { st with aliases := aliases2, remotes := remotes2,
                    sections := updSection st.sections st.currentSection k pv }
      | none => st

/-- `GitParser.parse` (total, validation field literal — see `bashParse`). -/
def gitParse (content : String) : GitParsed :=
  let lines := linesOf content
  let acc := lines.foldl gitStep ⟨[], [], [], [], ""⟩
  { sections := acc.sections, aliases := acc.aliases, remotes := acc.remotes,
    comments := acc.comments, lineCount := lines.length,
    validation := trivialValidation }

/-- Whether the line matches `^[^=]+\s*=\s*.+$` (the well-formedness regex of
`GitParser.validate`). -/
def gitKvOk (line : String) : Bool := (gitKv line).isSome

def gitLineErrs (n : Nat) (line : String) : List String :=
  (if containsSub "=" line && !gitKvOk line then
    ["Line " ++ natStrS n ++ ": Invalid key-value format"] else []) ++
  (if startsWithB "[" line && !endsWithB "]" line then
    ["Line " ++ natStrS n ++ ": Unclosed section header"] else [])

def gitLineSuggs (n : Nat) (line : String) : List String :=
  (if containsSub "user.name" line && !containsSub "user.email" line then
    ["Line " ++ natStrS n ++ ": Consider setting user.email along with user.name"] else []) ++
  (if containsSub "core.editor" line && containsSub "vim" line &&
      !containsSub "nano" line then
    ["Line " ++ natStrS n ++ ": Consider using nano for core.editor if vim is not available"] else [])

/-- `GitParser.validate` (no warnings are ever pushed). -/
def gitValidate (content : String) : ValidationResult :=
  let e := perLine gitLineErrs content
  { isValid := e.isEmpty, errors := e, warnings := [],
    suggestions := perLine gitLineSuggs content }

/-! ### SimpleParser (src/parsers/simple-parser.ts) -/

structure SimpleParsed where
  content : String
  lineCount : Nat
  comments : List String
  validation : ValidationResult
deriving DecidableEq

/-- `SimpleParser.parse`. -/
def simpleParse (content : String) : SimpleParsed :=
  let lines := linesOf content
  { content := content, lineCount := lines.length,
    comments := (lines.filter (fun l => startsWithB "#" (jsTrim l))).map jsTrim,
    validation := trivialValidation }

/-- `SimpleParser.validate` — the constant valid result. -/
def simpleValidate (_content : String) : ValidationResult := trivialValidation

/-- Concrete options used by the C9 witness scenario: hidden files excluded
and an exclude pattern matching the requested file itself. -/
def c9Opts : ScanOptions :=
  { paths := some ["/.bashrc"], includeHidden := false,
    excludePatterns := some [".bashrc"] }

end DotSync

open DotSync

/-! ## Helper lemmas -/

theorem listIsEmpty_iff {α : Type} (l : List α) : l.isEmpty = true ↔ l = [] := by
  cases l <;> simp

theorem prefB_iff (n h : List Char) : prefB n h = true ↔ ∃ w, h = n ++ w := by
  induction n generalizing h with
  | nil => simp [prefB]
  | cons a as ih =>
    cases h with
    | nil => simp [prefB]
    | cons b bs =>
      simp only [prefB, Bool.and_eq_true, decide_eq_true_eq, ih,
        List.cons_append, List.cons.injEq]
      constructor
      · rintro ⟨rfl, w, rfl⟩; exact ⟨w, rfl, rfl⟩
      · rintro ⟨w, rfl, rfl⟩; exact ⟨rfl, w, rfl⟩

theorem infB_iff (n h : List Char) : infB n h = true ↔ ∃ u w, h = u ++ n ++ w := by
  induction h with
  | nil =>
    rw [show infB n [] = prefB n [] from rfl, prefB_iff]
    constructor
    · rintro ⟨w, hw⟩
      exact ⟨[], w, by simpa using hw⟩
    · rintro ⟨u, w, hw⟩
      have h2 := hw.symm
      simp only [List.append_eq_nil] at h2
      exact ⟨w, by simp [h2.1.2, h2.2]⟩
  | cons b bs ih =>
    rw [show infB n (b :: bs) = (prefB n (b :: bs) || infB n bs) from rfl]
    simp only [Bool.or_eq_true, prefB_iff, ih]
    constructor
    · rintro (⟨w, hw⟩ | ⟨u, w, hw⟩)
      · exact ⟨[], w, by simpa using hw⟩
      · exact ⟨b :: u, w, by simp [hw]⟩
    · rintro ⟨u, w, hw⟩
      cases u with
      | nil => exact Or.inl ⟨w, by simpa using hw⟩
      | cons x u2 =>
        right
        simp only [List.cons_append, List.cons.injEq] at hw
        exact ⟨u2, w, hw.2⟩

theorem containsSub_iff (n h : String) :
    containsSub n h = true ↔ ∃ u w, h.data = u ++ n.data ++ w := infB_iff _ _

theorem containsSub_mem {n h : String} (hc : containsSub n h = true) {c : Char}
    (hm : c ∈ n.data) : c ∈ h.data := by
  obtain ⟨u, w, hw⟩ := (containsSub_iff n h).mp hc
  rw [hw]
  simp [hm]

theorem digitChar_mem_digits {m : Nat} (h : m < 10) :
    digitChar m ∈ "0123456789".data := by
  interval_cases m <;> decide

theorem toLower_digitChar {m : Nat} (h : m < 10) :
    (digitChar m).toLower = digitChar m := by
  interval_cases m <;> decide

theorem natStrGo_mem {P : Char → Prop} (hP : ∀ m, m < 10 → P (digitChar m)) :
    ∀ (fuel n : Nat) (acc : List Char), (∀ c ∈ acc, P c) →
      ∀ c ∈ natStrGo fuel n acc, P c := by
  intro fuel
  induction fuel with
  | zero => intro n acc hacc c hc; exact hacc c hc
  | succ f ih =>
    intro n acc hacc c hc
    rw [natStrGo] at hc
    split at hc
    · next h =>
      rcases List.mem_cons.mp hc with rfl | hc2
      · exact hP n h
      · exact hacc c hc2
    · next h =>
      refine ih (n / 10) _ ?_ c hc
      intro d hd
      rcases List.mem_cons.mp hd with rfl | hd2
      · exact hP _ (Nat.mod_lt _ (by omega))
      · exact hacc d hd2

theorem natStr_mem_digits (n : Nat) : ∀ c ∈ natStr n, c ∈ "0123456789".data :=
  natStrGo_mem (fun m hm => digitChar_mem_digits hm) (n + 1) n [] (by simp)

theorem natStrGo_map_toLower :
    ∀ (fuel n : Nat) (acc : List Char),
      (natStrGo fuel n acc).map Char.toLower = natStrGo fuel n (acc.map Char.toLower) := by
  intro fuel
  induction fuel with
  | zero => intro n acc; rfl
  | succ f ih =>
    intro n acc
    rw [natStrGo, natStrGo]
    split
    · next h => simp [toLower_digitChar h]
    · next h =>
      rw [ih]
      simp [toLower_digitChar (Nat.mod_lt n (show 0 < 10 by omega))]

theorem natStr_map_toLower (n : Nat) : (natStr n).map Char.toLower = natStr n := by
  have := natStrGo_map_toLower (n + 1) n []
  simpa [natStr] using this

theorem strData_append (a b : String) : (a ++ b).data = a.data ++ b.data := by
  cases a; cases b; rfl

theorem perLineAux_mem {f : Nat → String → List String} {ls : List String}
    {i n : Nat} {line : String} (hg : ls[i]? = some line) {x : String}
    (hx : x ∈ f (n + i) line) : x ∈ perLineAux f n ls := by
  induction ls generalizing i n with
  | nil => simp at hg
  | cons l t ih =>
    cases i with
    | zero =>
      simp only [List.getElem?_cons_zero, Option.some.injEq] at hg
      subst hg
      simpa [perLineAux] using Or.inl hx
    | succ j =>
      simp only [List.getElem?_cons_succ] at hg
      have hx2 : x ∈ f ((n + 1) + j) line := by
        have : n + (j + 1) = (n + 1) + j := by omega
        rwa [this] at hx
      simpa [perLineAux] using Or.inr (ih hg hx2)

theorem GSeg_nil_inv {v : List Char} (h : GSeg [] v) : v = [] := by
  cases h; rfl

theorem GSeg_lit_inv {c : Char} {ts : List GTok} {v : List Char}
    (h : GSeg (.lit c :: ts) v) : ∃ v2, v = c :: v2 ∧ GSeg ts v2 := by
  cases h with
  | lit h2 => exact ⟨_, rfl, h2⟩

theorem GSeg_star_inv {ts : List GTok} {v : List Char}
    (h : GSeg (.star :: ts) v) :
    ∃ u v2, v = u ++ v2 ∧ (∀ c ∈ u, isLineTerm c = false) ∧ GSeg ts v2 := by
  cases h with
  | star u hu h2 => exact ⟨u, _, rfl, hu, h2⟩

theorem gmEmpty_iff (ts : List GTok) : gmEmpty ts = true ↔ GSeg ts [] := by
  induction ts with
  | nil =>
    simp only [gmEmpty]
    exact ⟨fun _ => GSeg.nil, fun _ => trivial⟩
  | cons t ts ih =>
    cases t with
    | lit c =>
      simp only [gmEmpty]
      constructor
      · intro h; exact Bool.noConfusion h
      · intro h
        obtain ⟨v2, hv2, _⟩ := GSeg_lit_inv h
        exact List.noConfusion hv2
    | star =>
      simp only [gmEmpty, ih]
      constructor
      · intro h
        exact (show GSeg (.star :: ts) ([] ++ []) from GSeg.star [] (by simp) h)
      · intro h
        obtain ⟨u, v2, huv, _, h2⟩ := GSeg_star_inv h
        obtain ⟨hu, hv⟩ := List.append_eq_nil.mp huv.symm
        subst hv
        exact h2

theorem gmHereCs_iff : ∀ (cs : List Char) (ts : List GTok),
    gmHereCs cs ts = true ↔ ∃ v w, cs = v ++ w ∧ GSeg ts v := by
  intro cs
  induction cs with
  | nil =>
    intro ts
    rw [show gmHereCs [] ts = gmEmpty ts from rfl, gmEmpty_iff]
    constructor
    · intro h; exact ⟨[], [], rfl, h⟩
    · rintro ⟨v, w, hvw, hseg⟩
      obtain ⟨hv, hw⟩ := List.append_eq_nil.mp hvw.symm
      subst hv
      exact hseg
  | cons d cs2 ih =>
    intro ts
    induction ts with
    | nil =>
      exact ⟨fun _ => ⟨[], d :: cs2, rfl, GSeg.nil⟩, fun _ => rfl⟩
    | cons t ts2 ihts =>
      cases t with
      | lit c =>
        rw [show gmHereCs (d :: cs2) (.lit c :: ts2) =
              (c = d && gmHereCs cs2 ts2) from rfl]
        simp only [Bool.and_eq_true, decide_eq_true_eq, ih ts2]
        constructor
        · rintro ⟨rfl, v, w, hvw, hseg⟩
          exact ⟨c :: v, w, by simp [hvw], GSeg.lit hseg⟩
        · rintro ⟨v, w, hvw, hseg⟩
          obtain ⟨v2, rfl, hseg2⟩ := GSeg_lit_inv hseg
          simp only [List.cons_append, List.cons.injEq] at hvw
          exact ⟨hvw.1.symm, v2, w, hvw.2, hseg2⟩
      | star =>
        rw [show gmHereCs (d :: cs2) (.star :: ts2) =
              (gmHereCs (d :: cs2) ts2 ||
                (!isLineTerm d && gmHereCs cs2 (.star :: ts2))) from rfl]
        simp only [Bool.or_eq_true, Bool.and_eq_true, ihts, ih (.star :: ts2)]
        constructor
        · rintro (⟨v, w, hvw, hseg⟩ | ⟨hd, v, w, hvw, hseg⟩)
          · exact ⟨v, w, hvw, by simpa using GSeg.star [] (by simp) hseg⟩
          · obtain ⟨u, v2, rfl, hu, hseg2⟩ := GSeg_star_inv hseg
            refine ⟨d :: (u ++ v2), w, by simp [hvw], ?_⟩
            refine (show GSeg (.star :: ts2) ((d :: u) ++ v2) from ?_)
            refine GSeg.star (d :: u) ?_ hseg2
            intro x hx
            rcases List.mem_cons.mp hx with rfl | hxx
            · simpa using hd
            · exact hu x hxx
        · rintro ⟨v, w, hvw, hseg⟩
          obtain ⟨u, v2, rfl, hu, hseg2⟩ := GSeg_star_inv hseg
          cases u with
          | nil => exact Or.inl ⟨v2, w, by simpa using hvw, hseg2⟩
          | cons x u2 =>
            right
            simp only [List.cons_append, List.cons.injEq] at hvw
            obtain ⟨hdx, hcs⟩ := hvw
            subst hdx
            refine ⟨by simpa using hu d (by simp), u2 ++ v2, w, by simpa using hcs, ?_⟩
            exact GSeg.star u2 (fun e he => hu e (by simp [he])) hseg2

theorem gmHere_iff (ts : List GTok) (cs : List Char) :
    gmHere ts cs = true ↔ ∃ v w, cs = v ++ w ∧ GSeg ts v := gmHereCs_iff cs ts

theorem gmSome_iff (ts : List GTok) (cs : List Char) :
    gmSome ts cs = true ↔ ∃ u v w, cs = u ++ v ++ w ∧ GSeg ts v := by
  induction cs with
  | nil =>
    rw [show gmSome ts [] = gmHere ts [] from rfl, gmHere_iff]
    constructor
    · rintro ⟨v, w, hvw, hseg⟩
      exact ⟨[], v, w, by simpa using hvw, hseg⟩
    · rintro ⟨u, v, w, hvw, hseg⟩
      obtain ⟨h1, hw⟩ := List.append_eq_nil.mp hvw.symm
      obtain ⟨hu, hv⟩ := List.append_eq_nil.mp h1
      exact ⟨v, w, by simp [hv, hw], hseg⟩
  | cons c cs2 ih =>
    rw [show gmSome ts (c :: cs2) = (gmHere ts (c :: cs2) || gmSome ts cs2) from rfl]
    simp only [Bool.or_eq_true, gmHere_iff, ih]
    constructor
    · rintro (⟨v, w, hvw, hseg⟩ | ⟨u, v, w, hvw, hseg⟩)
      · exact ⟨[], v, w, by simpa using hvw, hseg⟩
      · exact ⟨c :: u, v, w, by simp [hvw], hseg⟩
    · rintro ⟨u, v, w, hvw, hseg⟩
      cases u with
      | nil => exact Or.inl ⟨v, w, by simpa using hvw, hseg⟩
      | cons x u2 =>
        right
        simp only [List.cons_append, List.cons.injEq] at hvw
        exact ⟨u2, v, w, hvw.2, hseg⟩

theorem findAssoc_snd_mem {α : Type} :
    ∀ (l : List (String × α)) (key : String) (v : α),
      findAssoc l key = some v → v ∈ l.map Prod.snd := by
  intro l
  induction l with
  | nil => intro key v h; exact Option.noConfusion h
  | cons p t ih =>
    intro key v h
    obtain ⟨k, w⟩ := p
    by_cases hk : k = key
    · rw [findAssoc, if_pos hk] at h
      injection h with h2
      subst h2
      simp
    · rw [findAssoc, if_neg hk] at h
      simpa using Or.inr (ih key v h)

/-- No entry of the name/extension table maps to the generic `custom` kind. -/
theorem mapping_ne_custom {s : String} {t : ConfigType}
    (h : findAssoc CONFIG_TYPE_MAPPING s = some t) : t ≠ ConfigType.custom := by
  have hm := findAssoc_snd_mem CONFIG_TYPE_MAPPING s t h
  simp only [CONFIG_TYPE_MAPPING, List.map_cons, List.map_nil, List.mem_cons,
    List.not_mem_nil, or_false] at hm
  rcases hm with rfl|rfl|rfl|rfl|rfl|rfl|rfl|rfl|rfl|rfl|rfl|rfl|rfl|rfl|rfl <;> decide

/-- The lookup tables contain no empty key, so an empty extension never
matches. -/
theorem findAssoc_mapping_empty (s : String) (h : s.data = []) :
    findAssoc CONFIG_TYPE_MAPPING s = none := by
  cases s with
  | mk d =>
    have hd : d = [] := h
    subst hd
    decide

theorem scanFile_large {o : ScanOptions} {path : String} {sz mt : Nat}
    {c : String} (h : sz > effMax o) :
    scanFile o path sz mt c =
      (.error ⟨"Error", tooLargeMsg sz⟩, [.scanFileCall path]) := by
  simp [scanFile, h]

theorem scanFile_ok {o : ScanOptions} {path : String} {sz mt : Nat}
    {c : String} {t : ConfigType} (hsz : ¬sz > effMax o)
    (ht : determineConfigType path = some t) :
    scanFile o path sz mt c =
      (.ok [{ path := path, type := t, content := c, lastModified := mt,
              size := sz, dependencies := [], isActive := true,
              backupStatus := .not_backed_up }],
       [.scanFileCall path, .readCall path]) := by
  simp [scanFile, hsz, ht]

theorem lower_tooLargeMsg (sz : Nat) :
    (lowerStr (tooLargeMsg sz)).data =
      "file too large: ".data ++ natStr sz ++ " bytes".data := by
  have h1 : (tooLargeMsg sz).data =
      "File too large: ".data ++ natStr sz ++ " bytes".data := by
    rw [show tooLargeMsg sz = "File too large: " ++ natStrS sz ++ " bytes" from rfl,
      strData_append, strData_append]
    rfl
  rw [show (lowerStr (tooLargeMsg sz)).data =
      ((tooLargeMsg sz).data).map Char.toLower from rfl, h1]
  rw [List.map_append, List.map_append, natStr_map_toLower]
  have h2 : "File too large: ".data.map Char.toLower = "file too large: ".data := by
    decide
  have h3 : " bytes".data.map Char.toLower = " bytes".data := by decide
  rw [h2, h3]

theorem categorize_tooLarge (sz : Nat) :
    categorizeError (tooLargeMsg sz) = .size_limit := by
  have hchars : ∀ c ∈ (lowerStr (tooLargeMsg sz)).data,
      c ∈ "file too large: bytes0123456789".data := by
    rw [lower_tooLargeMsg]
    intro c hc
    rcases List.mem_append.mp hc with hc2 | hc3
    · rcases List.mem_append.mp hc2 with hca | hcb
      · exact (show ∀ c ∈ "file too large: ".data,
          c ∈ "file too large: bytes0123456789".data by decide) c hca
      · exact (show ∀ c ∈ "0123456789".data,
          c ∈ "file too large: bytes0123456789".data by decide) c
          (natStr_mem_digits sz c hcb)
    · exact (show ∀ c ∈ " bytes".data,
        c ∈ "file too large: bytes0123456789".data by decide) c hc3
  have hno : ∀ (needle : String) (ch : Char), ch ∈ needle.data →
      ch ∉ "file too large: bytes0123456789".data →
      containsSub needle (lowerStr (tooLargeMsg sz)) = false := by
    intro needle ch hch hnotin
    cases hcs : containsSub needle (lowerStr (tooLargeMsg sz)) with
    | false => rfl
    | true => exact absurd (hchars ch (containsSub_mem hcs hch)) hnotin
  have hyes : containsSub "too large" (lowerStr (tooLargeMsg sz)) = true := by
    rw [containsSub_iff]
    refine ⟨"file ".data, ": ".data ++ natStr sz ++ " bytes".data, ?_⟩
    rw [lower_tooLargeMsg,
      show "file too large: ".data = "file ".data ++ "too large".data ++ ": ".data
        by decide]
    simp
  simp only [categorizeError]
  rw [hno "permission denied" 'p' (by decide) (by decide),
    hno "eacces" 'c' (by decide) (by decide),
    hno "no such file" 'u' (by decide) (by decide),
    hno "enoent" 'n' (by decide) (by decide), hyes]
  rfl

/-! ## Claims -/

/-- C1 (amended): for the round-trip file containing `export FOO="bar"` and
`alias ll="ls -la"`, the shell parser's parse succeeds and extracts the alias
name `ll`, but `variables` has *no* `FOO` entry: the variable pattern is
anchored at the start of the line, so the `export ` prefix prevents the
match.  A file whose line is literally `FOO="bar"` does yield
`variables.FOO = "bar"`. -/
theorem claim_C1 :
    (bashParse "export FOO=\"bar\"\nalias ll=\"ls -la\"").vars = [] ∧
    (bashParse "export FOO=\"bar\"\nalias ll=\"ls -la\"").aliases = ["ll"] ∧
    (bashParse "FOO=\"bar\"\nalias ll=\"ls -la\"").vars = [("FOO", JVal.str "bar")] ∧
    (bashParse "FOO=\"bar\"\nalias ll=\"ls -la\"").aliases = ["ll"] := by
  decide

/-- C1 counterexample: on the exact round-trip input of the claim, the parse
result's variable map has no binding for `FOO` at all (so in particular
`variables.FOO` is not the string `"bar"`), while the alias `ll` is
extracted. -/
theorem claim_C1_counterexample :
    findAssoc (bashParse "export FOO=\"bar\"\nalias ll=\"ls -la\"").vars "FOO" = none ∧
    (bashParse "export FOO=\"bar\"\nalias ll=\"ls -la\"").aliases = ["ll"] := by
  decide

/-- C4: an exact base-name hit in the classification table always wins (the
extension is never consulted); the extension table is consulted only when the
base-name lookup missed; and the `custom` kind arises exactly when both table
lookups miss and some supported-extension string occurs inside the base
name. -/
theorem claim_C4 (filePath : String) :
    (∀ t, findAssoc CONFIG_TYPE_MAPPING (basename filePath) = some t →
        determineConfigType filePath = some t) ∧
    (findAssoc CONFIG_TYPE_MAPPING (basename filePath) = none →
      ∀ t, findAssoc CONFIG_TYPE_MAPPING (extname filePath) = some t →
        determineConfigType filePath = some t) ∧
    (determineConfigType filePath = some ConfigType.custom ↔
      findAssoc CONFIG_TYPE_MAPPING (basename filePath) = none ∧
      findAssoc CONFIG_TYPE_MAPPING (extname filePath) = none ∧
      SUPPORTED_EXTENSIONS.any (fun ext => containsSub ext (basename filePath)) = true) := by
  refine ⟨?_, ?_, ?_⟩
  · intro t ht
    simp [determineConfigType, ht]
  · intro hname t hext
    cases hne : (extname filePath).data.isEmpty with
    | true =>
      exfalso
      rw [findAssoc_mapping_empty _ ((listIsEmpty_iff _).mp hne)] at hext
      exact Option.noConfusion hext
    | false =>
      simp [determineConfigType, hname, hext, hne]
  · constructor
    · intro h
      rcases hname : findAssoc CONFIG_TYPE_MAPPING (basename filePath) with _ | t
      · rcases hext : findAssoc CONFIG_TYPE_MAPPING (extname filePath) with _ | t2
        · refine ⟨rfl, rfl, ?_⟩
          simp only [determineConfigType, hname, hext] at h
          cases hsup : SUPPORTED_EXTENSIONS.any
              (fun ext => containsSub ext (basename filePath)) with
          | true => rfl
          | false =>
            exfalso
            cases hne : (extname filePath).data.isEmpty <;>
              simp [hne, hsup] at h
        · exfalso
          cases hne : (extname filePath).data.isEmpty with
          | true =>
            rw [findAssoc_mapping_empty _ ((listIsEmpty_iff _).mp hne)] at hext
            exact Option.noConfusion hext
          | false =>
            simp only [determineConfigType, hname, hext] at h
            simp only [hne] at h
            exact mapping_ne_custom hext (by simp at h; exact h)
      · exfalso
        simp only [determineConfigType, hname] at h
        exact mapping_ne_custom hname (by injection h)
    · rintro ⟨hname, hext, hsup⟩
      cases hne : (extname filePath).data.isEmpty <;>
        simp [determineConfigType, hname, hext, hsup, hne]

/-- C4 witness: the file `.tmux.conf` is named exactly in the table (kind
`system`) and is classified `system` even though its extension `.conf` would
otherwise fall through to the `custom` fallback. -/
theorem claim_C4_witness :
    findAssoc CONFIG_TYPE_MAPPING (basename "/home/u/.tmux.conf") =
      some ConfigType.system ∧
    determineConfigType "/home/u/.tmux.conf" = some ConfigType.system :=
  ⟨by decide, (claim_C4 "/home/u/.tmux.conf").1 ConfigType.system (by decide)⟩

/-- C6: for each of the four parsers (shell, vim, git, generic), a validation
result is invalid exactly when its error list is non-empty; warnings and
suggestions never affect validity. -/
theorem claim_C6 (content : String) :
    ((bashValidate content).isValid = true ↔ (bashValidate content).errors = []) ∧
    ((vimValidate content).isValid = true ↔ (vimValidate content).errors = []) ∧
    ((gitValidate content).isValid = true ↔ (gitValidate content).errors = []) ∧
    ((simpleValidate content).isValid = true ↔ (simpleValidate content).errors = []) := by
  refine ⟨?_, ?_, ?_, ?_⟩ <;>
    simp [bashValidate, vimValidate, gitValidate, simpleValidate,
      trivialValidation, listIsEmpty_iff]

/-- C7 (amended): the vim validator checks each line independently — the
plugin-without-initialization warning is emitted for every line that contains
`Plug` but does not itself contain `call plug#begin`, even when a
`plug#begin` call appears elsewhere in the file. -/
theorem claim_C7 (content : String) (i : Nat) (line : String)
    (hline : (linesOf content)[i]? = some line)
    (hplug : containsSub "Plug" line = true)
    (hinit : containsSub "call plug#begin" line = false) :
    plugWarn (i + 1) ∈ (vimValidate content).warnings := by
  have hmem : plugWarn (1 + i) ∈ vimLineWarns (1 + i) line := by
    simp [vimLineWarns, hplug, hinit]
  have hw : (vimValidate content).warnings = perLineAux vimLineWarns 1 (linesOf content) :=
    rfl
  rw [hw, show i + 1 = 1 + i by omega]
  exact perLineAux_mem hline hmem

/-- C7 counterexample: a file whose first line is `call plug#begin()` (so
`plug#begin` appears in the file) still receives the plugin warning for its
`Plug` declaration line — contradicting the claim that such files receive no
warning. -/
theorem claim_C7_counterexample :
    containsSub "plug#begin" "call plug#begin()\nPlug \x22vim-airline\x22" = true ∧
    (vimValidate "call plug#begin()\nPlug \x22vim-airline\x22").warnings =
      [plugWarn 2] := by
  decide

/-- C7 witness: instantiating the amended claim on the counterexample file's
second line. -/
theorem claim_C7_witness :
    (linesOf "call plug#begin()\nPlug \x22vim-airline\x22")[1]? =
      some "Plug \x22vim-airline\x22" ∧
    containsSub "Plug" "Plug \x22vim-airline\x22" = true ∧
    containsSub "call plug#begin" "Plug \x22vim-airline\x22" = false ∧
    plugWarn 2 ∈
      (vimValidate "call plug#begin()\nPlug \x22vim-airline\x22").warnings :=
  ⟨by decide, by decide, by decide,
    claim_C7 "call plug#begin()\nPlug \x22vim-airline\x22" 1 "Plug \x22vim-airline\x22"
      (by decide) (by decide) (by decide)⟩

/-- C5: for literal-plus-`*` exclude patterns, a path is excluded iff some
pattern's derived regex (`*` ↦ `.*`) matches a contiguous substring of the
path (no anchoring); with no pattern list supplied nothing is excluded. -/
theorem claim_C5 (path : String) (pats : List String)
    (_hlit : ∀ p ∈ pats, litGlob p = true) :
    (shouldExclude path (some pats) = true ↔
      ∃ p ∈ pats, ∃ u v w, path.data = u ++ v ++ w ∧ GSeg (patToks p) v) ∧
    shouldExclude path none = false := by
  constructor
  · rw [show shouldExclude path (some pats) =
        pats.any (fun pat => gmSome (patToks pat) path.data) from rfl]
    rw [List.any_eq_true]
    constructor
    · rintro ⟨p, hp, hg⟩
      exact ⟨p, hp, (gmSome_iff _ _).mp hg⟩
    · rintro ⟨p, hp, hg⟩
      exact ⟨p, hp, (gmSome_iff _ _).mpr hg⟩
  · rfl

/-- C5 witness: the literal pattern `*cache*` on a concrete path. -/
theorem claim_C5_witness :
    (∀ p ∈ ["*cache*"], litGlob p = true) ∧
    ((shouldExclude "/home/u/x.cache/y" (some ["*cache*"]) = true ↔
      ∃ p ∈ ["*cache*"], ∃ u v w,
        "/home/u/x.cache/y".data = u ++ v ++ w ∧ GSeg (patToks p) v) ∧
     shouldExclude "/home/u/x.cache/y" none = false) :=
  ⟨by decide, claim_C5 "/home/u/x.cache/y" ["*cache*"] (by decide)⟩

/-- C8: every parser's successful parse embeds the constant trivial
validation object `{isValid: true, errors: [], warnings: [], suggestions: []}`
in the returned ParsedConfig — even on content for which `validate` reports a
non-empty error list, as the final conjunct shows on a concrete input with an
unclosed variable expansion. -/
theorem claim_C8 (content : String) :
    (bashParse content).validation = trivialValidation ∧
    (vimParse content).validation = trivialValidation ∧
    (gitParse content).validation = trivialValidation ∧
    (simpleParse content).validation = trivialValidation ∧
    ((bashValidate "echo $\x7bx").errors = ["Line 1: Unclosed variable expansion"] ∧
      (bashParse "echo $\x7bx").validation = trivialValidation) :=
  ⟨rfl, rfl, rfl, rfl, by decide, rfl⟩

/-- C2 (amended): whenever the single-file scanner meets a stat-reported size
above the effective bound it returns the size-limit failure without ever
reading the file, and that failure's category is `size_limit`; when the
oversized file is a *top-level requested path*, the scan result has zero
records and exactly one size-limit ScanError.  (For oversized files
discovered during a directory walk the failure is dropped silently — see the
counterexample — so "exactly one error" holds only for top-level paths.) -/
theorem claim_C2 (root : FsNode) (home cwd : String) (o : ScanOptions)
    (p : String) (sz mt : Nat) (c : String)
    (hpaths : o.paths = some [p])
    (hfile : lookupNode root (comps (resolvePath home cwd p)) =
      some (.file sz mt c))
    (hbig : sz > effMax o) :
    scanFile o (resolvePath home cwd p) sz mt c =
      (.error ⟨"Error", tooLargeMsg sz⟩,
       [.scanFileCall (resolvePath home cwd p)]) ∧
    categorizeError (tooLargeMsg sz) = ScanErrorType.size_limit ∧
    (scan root home cwd o).1 =
      { configs := [],
        metadata := { totalFiles := 1, validConfigs := 0 },
        errors := [{ path := resolvePath home cwd p, message := tooLargeMsg sz,
                     type := ScanErrorType.size_limit, name := "Error" }] } ∧
    (scan root home cwd o).2 = [.scanFileCall (resolvePath home cwd p)] := by
  have hsf := @scanFile_large o (resolvePath home cwd p) sz mt c hbig
  have hcat := categorize_tooLarge sz
  have hsp : scanPath root o (resolvePath home cwd p) =
      (.error ⟨"Error", tooLargeMsg sz⟩,
       [.scanFileCall (resolvePath home cwd p)]) := by
    simp only [scanPath, hfile, hsf]
  have hps : scanPaths root home cwd o [p] =
      ([], [mkScanError (resolvePath home cwd p) ⟨"Error", tooLargeMsg sz⟩],
       [.scanFileCall (resolvePath home cwd p)]) := by
    simp only [scanPaths, hsp]
    simp
  refine ⟨hsf, hcat, ?_, ?_⟩
  · simp only [scan, hpaths, Option.getD_some, hps]
    simp [mkScanError, hcat]
  · simp only [scan, hpaths, Option.getD_some, hps]

/-- C2 counterexample: an oversized file inside a scanned directory is passed
to the File Scanner (the scan-call event is recorded and the file is never
read), yet the scan result contains *zero* ScanErrors — not exactly one —
because directory walks drop per-file failures. -/
theorem claim_C2_counterexample :
    10485761 > MAX_FILE_SIZE ∧
    (scan (FsNode.dir (.cons "d" (.dir (.cons "big" (.file 10485761 0 "") .nil)) .nil))
        "/home/u" "/" { paths := some ["/d"] }).2 = [FsEv.scanFileCall "/d/big"] ∧
    (scan (FsNode.dir (.cons "d" (.dir (.cons "big" (.file 10485761 0 "") .nil)) .nil))
        "/home/u" "/" { paths := some ["/d"] }).1.errors = [] ∧
    (scan (FsNode.dir (.cons "d" (.dir (.cons "big" (.file 10485761 0 "") .nil)) .nil))
        "/home/u" "/" { paths := some ["/d"] }).1.configs = [] := by
  refine ⟨by decide, by decide, by decide, by decide⟩

/-- C2 witness: a concrete oversized top-level file. -/
theorem claim_C2_witness :
    lookupNode (FsNode.dir (.cons "big" (.file 10485761 0 "") .nil))
        (comps (resolvePath "/home/u" "/" "/big")) =
      some (.file 10485761 0 "") ∧
    10485761 > effMax ({ paths := some ["/big"] } : ScanOptions) ∧
    (categorizeError (tooLargeMsg 10485761) = ScanErrorType.size_limit ∧
     (scan (FsNode.dir (.cons "big" (.file 10485761 0 "") .nil)) "/home/u" "/"
         { paths := some ["/big"] }).1 =
       { configs := [],
         metadata := { totalFiles := 1, validConfigs := 0 },
         errors := [{ path := resolvePath "/home/u" "/" "/big",
                      message := tooLargeMsg 10485761,
                      type := ScanErrorType.size_limit, name := "Error" }] } ∧
     (scan (FsNode.dir (.cons "big" (.file 10485761 0 "") .nil)) "/home/u" "/"
         { paths := some ["/big"] }).2 =
       [.scanFileCall (resolvePath "/home/u" "/" "/big")]) :=
  ⟨rfl, by decide,
    (claim_C2 (FsNode.dir (.cons "big" (.file 10485761 0 "") .nil)) "/home/u" "/"
      { paths := some ["/big"] } "/big" 10485761 0 "" rfl rfl (by decide)).2⟩

/-- C3: scanning the explicit path list `["/nonexistent/file"]` over any tree
in which that path does not exist yields zero records, exactly one ScanError
of the not-found category, and `metadata.totalFiles = 1`; and in general
`totalFiles` is the number of top-level requested paths while `validConfigs`
is the number of records produced. -/
theorem claim_C3 (root : FsNode) (home cwd : String) (o : ScanOptions)
    (hpaths : o.paths = some ["/nonexistent/file"])
    (hmiss : lookupNode root (comps "/nonexistent/file") = none) :
    (scan root home cwd o).1 =
      { configs := [],
        metadata := { totalFiles := 1, validConfigs := 0 },
        errors := [{ path := "/nonexistent/file",
                     message := enoentMsg "/nonexistent/file",
                     type := ScanErrorType.not_found, name := "Error" }] } ∧
    (∀ (root2 : FsNode) (home2 cwd2 : String) (o2 : ScanOptions),
      (scan root2 home2 cwd2 o2).1.metadata.totalFiles =
        (o2.paths.getD DEFAULT_SCAN_PATHS).length ∧
      (scan root2 home2 cwd2 o2).1.metadata.validConfigs =
        (scan root2 home2 cwd2 o2).1.configs.length) := by
  constructor
  · have hres : resolvePath home cwd "/nonexistent/file" = "/nonexistent/file" := rfl
    have hsp : scanPath root o "/nonexistent/file" =
        (.error ⟨"Error", enoentMsg "/nonexistent/file"⟩, []) := by
      simp only [scanPath, hmiss]
    have hps : scanPaths root home cwd o ["/nonexistent/file"] =
        ([], [mkScanError "/nonexistent/file"
                ⟨"Error", enoentMsg "/nonexistent/file"⟩], []) := by
      simp only [scanPaths, hres, hsp]
      simp
    have hcat : categorizeError (enoentMsg "/nonexistent/file") =
        ScanErrorType.not_found := by decide
    simp only [scan, hpaths, Option.getD_some, hps]
    simp [mkScanError, hcat]
  · intro root2 home2 cwd2 o2
    exact ⟨rfl, rfl⟩

/-- C3 witness: the empty root directory. -/
theorem claim_C3_witness :
    lookupNode (FsNode.dir .nil) (comps "/nonexistent/file") = none ∧
    ((scan (FsNode.dir .nil) "/home/u" "/"
        { paths := some ["/nonexistent/file"] }).1 =
      { configs := [],
        metadata := { totalFiles := 1, validConfigs := 0 },
        errors := [{ path := "/nonexistent/file",
                     message := enoentMsg "/nonexistent/file",
                     type := ScanErrorType.not_found, name := "Error" }] } ∧
     (∀ (root2 : FsNode) (home2 cwd2 : String) (o2 : ScanOptions),
       (scan root2 home2 cwd2 o2).1.metadata.totalFiles =
         (o2.paths.getD DEFAULT_SCAN_PATHS).length ∧
       (scan root2 home2 cwd2 o2).1.metadata.validConfigs =
         (scan root2 home2 cwd2 o2).1.configs.length)) :=
  ⟨rfl, claim_C3 (FsNode.dir .nil) "/home/u" "/"
    { paths := some ["/nonexistent/file"] } rfl rfl⟩

/-- C9: the hidden-file policy and the exclusion matcher apply only inside
directory walks — a file supplied directly as a top-level requested path is
scanned and yields its record even when its base name starts with `.` while
`includeHidden` is false, and even when it matches a supplied exclude
pattern (both facts are hypotheses that the conclusion ignores, because the
top-level dispatch never consults them). -/
theorem claim_C9 (root : FsNode) (home cwd : String) (o : ScanOptions)
    (p : String) (sz mt : Nat) (c : String) (t : ConfigType)
    (hpaths : o.paths = some [p])
    (hfile : lookupNode root (comps (resolvePath home cwd p)) =
      some (.file sz mt c))
    (hsz : ¬sz > effMax o)
    (ht : determineConfigType (resolvePath home cwd p) = some t)
    (_hhidden : o.includeHidden = false)
    (_hdot : startsWithB "." (basename (resolvePath home cwd p)) = true)
    (_hexcl : shouldExclude (resolvePath home cwd p) o.excludePatterns = true) :
    (scan root home cwd o).1 =
      { configs := [{ path := resolvePath home cwd p, type := t, content := c,
                      lastModified := mt, size := sz, dependencies := [],
                      isActive := true, backupStatus := .not_backed_up }],
        metadata := { totalFiles := 1, validConfigs := 1 },
        errors := [] } ∧
    (scan root home cwd o).2 =
      [FsEv.scanFileCall (resolvePath home cwd p),
       FsEv.readCall (resolvePath home cwd p)] := by
  have hsf := @scanFile_ok o (resolvePath home cwd p) sz mt c t hsz ht
  have hsp : scanPath root o (resolvePath home cwd p) =
      (.ok [{ path := resolvePath home cwd p, type := t, content := c,
              lastModified := mt, size := sz, dependencies := [],
              isActive := true, backupStatus := .not_backed_up }],
       [.scanFileCall (resolvePath home cwd p),
        .readCall (resolvePath home cwd p)]) := by
    simp only [scanPath, hfile, hsf]
  have hps : scanPaths root home cwd o [p] =
      ([{ path := resolvePath home cwd p, type := t, content := c,
          lastModified := mt, size := sz, dependencies := [],
          isActive := true, backupStatus := .not_backed_up }], [],
       [.scanFileCall (resolvePath home cwd p),
        .readCall (resolvePath home cwd p)]) := by
    simp only [scanPaths, hsp]
    simp
  constructor
  · simp only [scan, hpaths, Option.getD_some, hps]
    simp
  · simp only [scan, hpaths, Option.getD_some, hps]

/-- C9 witness: a hidden, exclude-matched `.bashrc` requested directly. -/
theorem claim_C9_witness :
    lookupNode (FsNode.dir (.cons ".bashrc" (.file 5 7 "x") .nil))
        (comps (resolvePath "/home/u" "/" "/.bashrc")) =
      some (.file 5 7 "x") ∧
    ¬(5 > effMax c9Opts) ∧
    determineConfigType (resolvePath "/home/u" "/" "/.bashrc") =
      some ConfigType.bash ∧
    c9Opts.includeHidden = false ∧
    startsWithB "." (basename (resolvePath "/home/u" "/" "/.bashrc")) = true ∧
    shouldExclude (resolvePath "/home/u" "/" "/.bashrc")
      c9Opts.excludePatterns = true ∧
    ((scan (FsNode.dir (.cons ".bashrc" (.file 5 7 "x") .nil)) "/home/u" "/"
        c9Opts).1 =
      { configs := [{ path := resolvePath "/home/u" "/" "/.bashrc",
                      type := ConfigType.bash, content := "x",
                      lastModified := 7, size := 5, dependencies := [],
                      isActive := true, backupStatus := .not_backed_up }],
        metadata := { totalFiles := 1, validConfigs := 1 },
        errors := [] } ∧
     (scan (FsNode.dir (.cons ".bashrc" (.file 5 7 "x") .nil)) "/home/u" "/"
        c9Opts).2 =
      [FsEv.scanFileCall (resolvePath "/home/u" "/" "/.bashrc"),
       FsEv.readCall (resolvePath "/home/u" "/" "/.bashrc")]) :=
  ⟨rfl, by decide, by decide, rfl, by decide, by decide,
    claim_C9 (FsNode.dir (.cons ".bashrc" (.file 5 7 "x") .nil)) "/home/u" "/"
      c9Opts "/.bashrc" 5 7 "x"
      ConfigType.bash rfl rfl (by decide) (by decide) rfl (by decide) (by decide)⟩

/-- C10: a supplied `maxFileSize` of `0` is falsy in JS, so the scanner falls
back to the 10 MiB default: a non-empty classifiable file below the default
bound is read and yields its record rather than a size-limit error. -/
theorem claim_C10 (o : ScanOptions) (path : String) (sz mt : Nat) (c : String)
    (t : ConfigType) (hmax : o.maxFileSize = some 0) (_hpos : 0 < sz)
    (hlt : sz < MAX_FILE_SIZE) (ht : determineConfigType path = some t) :
    effMax o = MAX_FILE_SIZE ∧
    scanFile o path sz mt c =
      (.ok [{ path := path, type := t, content := c, lastModified := mt,
              size := sz, dependencies := [], isActive := true,
              backupStatus := .not_backed_up }],
       [.scanFileCall path, .readCall path]) := by
  have he : effMax o = MAX_FILE_SIZE := by simp [effMax, hmax]
  refine ⟨he, scanFile_ok ?_ ht⟩
  rw [he]
  omega

/-- C10 witness: `maxFileSize := 0` with a three-byte `.vimrc`. -/
theorem claim_C10_witness :
    ({ maxFileSize := some 0 } : ScanOptions).maxFileSize = some 0 ∧
    0 < 3 ∧ 3 < MAX_FILE_SIZE ∧
    determineConfigType "/a/.vimrc" = some ConfigType.vim ∧
    (effMax ({ maxFileSize := some 0 } : ScanOptions) = MAX_FILE_SIZE ∧
     scanFile { maxFileSize := some 0 } "/a/.vimrc" 3 9 "set number" =
       (.ok [{ path := "/a/.vimrc", type := ConfigType.vim,
               content := "set number", lastModified := 9, size := 3,
               dependencies := [], isActive := true,
               backupStatus := .not_backed_up }],
        [.scanFileCall "/a/.vimrc", .readCall "/a/.vimrc"])) :=
  ⟨rfl, by decide, by decide, by decide,
    claim_C10 { maxFileSize := some 0 } "/a/.vimrc" 3 9 "set number"
      ConfigType.vim rfl (by decide) (by decide) (by decide)⟩
